import Mathlib

/-!
Verification development for the PantsMUD connection/protocol layer.

The definitions below are shallow embeddings of the Python sources:
  * `src/mud/protocol/websocket.py` — draft-76 WebSocket handshake and the
    legacy `0x00 … 0xFF` frame decoder (`WebSocketConnection`);
  * `src/mud/network.py` — the telnet-style line decoder and the per-connection
    session-state stack (`MUDConnection`).

Conventions: Python byte strings on the frame path are `List Nat` (byte
values); text on the handshake/line path is `List Char` (latin-1 characters,
matching Python 2 `str` semantics).  Fallible Python code is embedded as
`Option`/`Except`; an uncaught Python exception is an `Except.error`.
-/

/-! ## Python character predicates (Python 2 `str.isdigit` / `str.isspace`) -/

/-- Python 2 `str.isdigit` for a single byte character: true exactly on `'0'`–`'9'`. -/

def pyIsDigit (c : Char) : Bool := 48 ≤ c.toNat && c.toNat ≤ 57

/-- Python 2 `str.isspace` for a single byte character: space, `\t`, `\n`, `\v`, `\f`, `\r`. -/

def pyIsSpace (c : Char) : Bool :=
  c.toNat = 32 || c.toNat = 9 || c.toNat = 10 || c.toNat = 11 || c.toNat = 12 || c.toNat = 13

/-! ## MD5 (`hashlib.md5(...).digest()`), over byte lists -/

/-- Truncation to a 32-bit machine word. -/

def w32 (n : Nat) : Nat := n % 4294967296

/-- 32-bit left rotation of `x` (assumed `< 2^32`) by `k` (assumed `≤ 32`). -/

def rotl32 (x k : Nat) : Nat := w32 (x * 2 ^ k) + x / 2 ^ (32 - k)

/-- 32-bit bitwise complement of `x` (assumed `< 2^32`). -/

def not32 (x : Nat) : Nat := 4294967295 - x

/-- The MD5 sine-derived round constants. -/

def md5K : List Nat :=
  [0xd76aa478, 0xe8c7b756, 0x242070db, 0xc1bdceee,
   0xf57c0faf, 0x4787c62a, 0xa8304613, 0xfd469501,
   0x698098d8, 0x8b44f7af, 0xffff5bb1, 0x895cd7be,
   0x6b901122, 0xfd987193, 0xa679438e, 0x49b40821,
   0xf61e2562, 0xc040b340, 0x265e5a51, 0xe9b6c7aa,
   0xd62f105d, 0x02441453, 0xd8a1e681, 0xe7d3fbc8,
   0x21e1cde6, 0xc33707d6, 0xf4d50d87, 0x455a14ed,
   0xa9e3e905, 0xfcefa3f8, 0x676f02d9, 0x8d2a4c8a,
   0xfffa3942, 0x8771f681, 0x6d9d6122, 0xfde5380c,
   0xa4beea44, 0x4bdecfa9, 0xf6bb4b60, 0xbebfbc70,
   0x289b7ec6, 0xeaa127fa, 0xd4ef3085, 0x04881d05,
   0xd9d4d039, 0xe6db99e5, 0x1fa27cf8, 0xc4ac5665,
   0xf4292244, 0x432aff97, 0xab9423a7, 0xfc93a039,
   0x655b59c3, 0x8f0ccc92, 0xffeff47d, 0x85845dd1,
   0x6fa87e4f, 0xfe2ce6e0, 0xa3014314, 0x4e0811a1,
   0xf7537e82, 0xbd3af235, 0x2ad7d2bb, 0xeb86d391]

/-- The MD5 per-round left-rotation amounts. -/

def md5S : List Nat :=
  [7, 12, 17, 22, 7, 12, 17, 22, 7, 12, 17, 22, 7, 12, 17, 22,
   5, 9, 14, 20, 5, 9, 14, 20, 5, 9, 14, 20, 5, 9, 14, 20,
   4, 11, 16, 23, 4, 11, 16, 23, 4, 11, 16, 23, 4, 11, 16, 23,
   6, 10, 15, 21, 6, 10, 15, 21, 6, 10, 15, 21, 6, 10, 15, 21]

/-- MD5 round function and message-word index for round `i`. -/

def md5FG (i b c d : Nat) : Nat × Nat :=
  if i < 16 then ((b &&& c) ||| (not32 b &&& d), i)
  else if i < 32 then ((d &&& b) ||| (not32 d &&& c), (5 * i + 1) % 16)
  else if i < 48 then (b ^^^ c ^^^ d, (3 * i + 5) % 16)
  else (c ^^^ (b ||| not32 d), (7 * i) % 16)

/-- Little-endian 4-byte serialization of a 32-bit word. -/

def le32 (n : Nat) : List Nat :=
  [n % 256, n / 256 % 256, n / 65536 % 256, n / 16777216 % 256]

/-- MD5 padding: `0x80`, zeros to 56 mod 64, then the 64-bit little-endian bit length. -/

def md5Pad (msg : List Nat) : List Nat :=
  let bitLen := 8 * msg.length
  let padZeros := (120 - (msg.length + 1) % 64) % 64
  msg ++ [128] ++ List.replicate padZeros 0 ++
    le32 (bitLen % 4294967296) ++ le32 (bitLen / 4294967296 % 4294967296)

/-- The `j`-th little-endian 32-bit word of a 64-byte block. -/

def md5Word (block : List Nat) (j : Nat) : Nat :=
  block.getD (4 * j) 0 + 256 * block.getD (4 * j + 1) 0 +
    65536 * block.getD (4 * j + 2) 0 + 16777216 * block.getD (4 * j + 3) 0

/-- One MD5 compression of a 64-byte block into the running state. -/

def md5Block (block : List Nat) (st : Nat × Nat × Nat × Nat) : Nat × Nat × Nat × Nat :=
  let r := (List.range 64).foldl
    (fun (p : Nat × Nat × Nat × Nat) i =>
      let (a, b, c, d) := p
      let (f, g) := md5FG i b c d
      let t := w32 (f + a + md5K.getD i 0 + md5Word block g)
      (d, w32 (b + rotl32 t (md5S.getD i 0)), b, c))
    st
  (w32 (st.1 + r.1), w32 (st.2.1 + r.2.1), w32 (st.2.2.1 + r.2.2.1), w32 (st.2.2.2 + r.2.2.2))

/-- Serialize the final MD5 state as the 16-byte digest. -/

def md5Final (st : Nat × Nat × Nat × Nat) : List Nat :=
  le32 st.1 ++ le32 st.2.1 ++ le32 st.2.2.1 ++ le32 st.2.2.2

/-- `hashlib.md5(msg).digest()`: the 16-byte MD5 digest of a byte string. -/

def md5 (msg : List Nat) : List Nat :=
  let padded := md5Pad msg
  md5Final ((List.range (padded.length / 64)).foldl
    (fun st i => md5Block ((padded.drop (64 * i)).take 64) st)
    (0x67452301, 0xefcdab89, 0x98badcfe, 0x10325476))

/-! ## `websocket_build_challenge_response` (websocket.py lines 286–325) -/

/-- The running `(n, s)` loop of `build_num` (websocket.py lines 301–308):
digits are folded into `n` base 10, whitespace characters increment `s`. -/

def buildNumLoop : List Char → Nat → Nat → Nat × Nat
  | [], n, s => (n, s)
  | c :: cs, n, s =>
    if pyIsDigit c then buildNumLoop cs (n * 10 + (c.toNat - 48)) s
    else if pyIsSpace c then buildNumLoop cs n (s + 1)
    else buildNumLoop cs n s

/-- `build_num` (websocket.py lines 297–315): the integer hidden in a key.
`none` models the raised `ValueError` (caught by the caller). -/

def build_num (key : List Char) : Option Nat :=
  let p := buildNumLoop key 0 0
  if 4294967295 < p.1 then none
  else if p.2 < 1 then none
  else some (p.1 / p.2)

/-- `struct.pack(">I", n)`: big-endian 4-byte serialization of a 32-bit value. -/

def pack32BE (n : Nat) : List Nat :=
  [n / 16777216 % 256, n / 65536 % 256, n / 256 % 256, n % 256]

/-- `websocket_build_challenge_response` (websocket.py lines 286–325): MD5 of
the two packed key numbers followed by the final eight bytes; `none` models the
`return False` taken when `build_num` raises `ValueError`. -/

def websocket_build_challenge_response (key1 key2 final_bytes : List Char) :
    Option (List Nat) :=
  match build_num key1, build_num key2 with
  | some num1, some num2 =>
      some (md5 (pack32BE num1 ++ pack32BE num2 ++ final_bytes.map Char.toNat))
  | _, _ => none

/-- Spec-side view: the decimal digits of a key, in order. -/

def keyDigits (key : List Char) : List Char := key.filter pyIsDigit

/-- Spec-side view: the unsigned integer formed by concatenating all decimal
digits of the key in order. -/

def keyNumber (key : List Char) : Nat :=
  (keyDigits key).foldl (fun a c => a * 10 + (c.toNat - 48)) 0

/-- Spec-side view: the number of whitespace characters in a key. -/

def keySpaces (key : List Char) : Nat := key.countP pyIsSpace

/-- Concrete `Sec-WebSocket-Key1` value used by the C1 witness. -/

def wKeyA : List Char := "1 2".toList

/-- Concrete `Sec-WebSocket-Key2` value used by the C1 witness. -/

def wKeyB : List Char := "3 4".toList

/-- Concrete 8-byte handshake tail used by the C1 witness. -/

def wFinal : List Char := "abcdefgh".toList

/-! ## Legacy frame decoder (`websocket_process_inbuf`, websocket.py lines 95–117) -/

/-- The exceptions `websocket_process_inbuf` can raise: the explicit
"malformed WebSocket packet" `Exception`, and the Unicode errors raised by
`packet[1:-1].decode("UTF-8").encode("latin1")`. -/

inductive WsErr where
  | malformedPacket : WsErr
  | unicodeError : WsErr
deriving DecidableEq, Repr

/-- Python `str.find(ch)` for a one-character pattern: index of the first
occurrence (`none` stands for `-1`). -/

def findByte (x : Nat) : List Nat → Option Nat
  | [] => none
  | b :: bs => if b = x then some 0 else (findByte x bs).map (· + 1)

/-- Strict UTF-8 decoding of a byte string into a list of Unicode code points
(Python 2 `str.decode("UTF-8")`); `none` models a raised `UnicodeDecodeError`. -/

def decodeUtf8 : List Nat → Option (List Nat)
  | [] => some []
  | b :: rest =>
    if b < 128 then Option.map (b :: ·) (decodeUtf8 rest)
    else if b < 192 then none
    else if b < 224 then
      match rest with
      | b1 :: r =>
        if 128 ≤ b1 && b1 < 192 then
          let cp := (b - 192) * 64 + (b1 - 128)
          if cp < 128 then none else Option.map (cp :: ·) (decodeUtf8 r)
        else none
      | [] => none
    else if b < 240 then
      match rest with
      | b1 :: b2 :: r =>
        if (128 ≤ b1 && b1 < 192) && (128 ≤ b2 && b2 < 192) then
          let cp := (b - 224) * 4096 + (b1 - 128) * 64 + (b2 - 128)
          if cp < 2048 then none
          else if 55296 ≤ cp && cp < 57344 then none
          else Option.map (cp :: ·) (decodeUtf8 r)
        else none
      | _ => none
    else if b < 248 then
      match rest with
      | b1 :: b2 :: b3 :: r =>
        if ((128 ≤ b1 && b1 < 192) && (128 ≤ b2 && b2 < 192)) && (128 ≤ b3 && b3 < 192) then
          let cp := (b - 240) * 262144 + (b1 - 128) * 4096 + (b2 - 128) * 64 + (b3 - 128)
          if cp < 65536 then none
          else if 1114111 < cp then none
          else Option.map (cp :: ·) (decodeUtf8 r)
        else none
      | _ => none
    else none

/-- `payload.decode("UTF-8").encode("latin1")`: decode UTF-8, then require every
code point to fit in one latin-1 byte; `none` models either Unicode exception. -/

def decodeUtf8ToLatin1 (payload : List Nat) : Option (List Nat) :=
  match decodeUtf8 payload with
  | none => none
  | some cps => if cps.all (· < 256) then some cps else none

/-- The `while` loop of `websocket_process_inbuf` (websocket.py lines 95–117),
with an explicit iteration bound `fuel`.  Each iteration removes at least one
byte from `inbuf`, so any `fuel ≥ inbuf.length` gives the loop's true behavior
(`wsProcessGo_irrel` below); the fuel-0 fallback is unreachable then.  The
state is the raw inbound buffer `inbuf` plus the accumulated `packet_inbuf`;
the result is the object state when the call returns or raises, with the raised
exception (if any) in the third component.  The malformed-packet `raise` and
the Unicode errors of `packet[1:-1].decode("UTF-8").encode("latin1")` leave
`inbuf` and `packet_inbuf` exactly as they were at the moment of the raise. -/

def wsProcessGo : Nat → List Nat → List (List Nat) →
    List Nat × List (List Nat) × Option WsErr
  | 0, inbuf, pkts => (inbuf, pkts, none)
  | fuel + 1, inbuf, pkts =>
    match findByte 0 inbuf, findByte 255 inbuf with
    | some ps, some pe =>
      if pe < ps then (inbuf, pkts, some WsErr.malformedPacket)
      else
        match decodeUtf8ToLatin1 ((((inbuf.take (pe + 1)).drop ps).drop 1).dropLast) with
        | none => (inbuf, pkts, some WsErr.unicodeError)
        | some m => wsProcessGo fuel (inbuf.drop (pe + 1)) (pkts ++ [m])
    | _, _ => (inbuf, pkts, none)

/-- `websocket_process_inbuf` (websocket.py lines 95–117): run the frame loop
to completion on the current object state. -/

def wsProcess (inbuf : List Nat) (pkts : List (List Nat)) :
    List Nat × List (List Nat) × Option WsErr :=
  wsProcessGo inbuf.length inbuf pkts

/-- One post-handshake `handle_read` (websocket.py lines 87–89): append the
read data to `inbuf`, then run `websocket_process_inbuf`.  The `Option WsErr`
is the exception (if any) that this particular call raises. -/

def wsFeed (st : List Nat × List (List Nat)) (data : List Nat) :
    (List Nat × List (List Nat)) × Option WsErr :=
  let r := wsProcess (st.1 ++ data) st.2
  ((r.1, r.2.1), r.2.2)

/-- Feed a sequence of reads through post-handshake `handle_read`, recording
whether any call raised. -/

def wsFeedAll : List (List Nat) → (List Nat × List (List Nat)) →
    (List Nat × List (List Nat)) × Bool
  | [], st => (st, false)
  | d :: ds, st =>
    let r := wsFeed st d
    let rest := wsFeedAll ds r.1
    (rest.1, r.2.isSome || rest.2)

/-- The decoded payload bytes of the first test frame, `"hello"`. -/

def helloBytes : List Nat := [104, 101, 108, 108, 111]

/-- The decoded payload bytes of the second test frame, `"world"`. -/

def worldBytes : List Nat := [119, 111, 114, 108, 100]

/-- The byte stream `\x00hello\xFF\x00world\xFF`. -/

def helloWorldStream : List Nat :=
  [0, 104, 101, 108, 108, 111, 255, 0, 119, 111, 114, 108, 100, 255]

/-! ## Line decoder and session-state stack (`MUDConnection`, network.py) -/

/-- The `while '\n' in data` loop of `on_telnet_data` (network.py lines
44–47): repeatedly split at the first line feed, collecting each line in
order.  Returns the extracted lines and the remaining bytes after the last
line feed — which the source then discards, since `data` is a local. -/

def splitLF : List Char → List (List Char) × List Char
  | [] => ([], [])
  | c :: cs =>
    let r := splitLF cs
    if c = '\n' then ([] :: r.1, r.2)
    else
      match r.1 with
      | [] => ([], c :: r.2)
      | l :: ls => ((c :: l) :: ls, r.2)

/-- The decoded-line sequence one read contributes to `line_inbuf`. -/

def lineSplit (data : List Char) : List (List Char) := (splitLF data).1

/-- Python `list.pop()`: remove and return the last element; `none` models the
`IndexError` raised on an empty list. -/

def pyPop {α : Type} : List α → Option (α × List α)
  | [] => none
  | x :: xs =>
    match pyPop xs with
    | none => some (x, [])
    | some (y, rest) => some (y, x :: rest)

/-- The dispatch loop of `on_telnet_data` (network.py lines 49–54), with an
explicit iteration bound `fuel` (each iteration pops one buffered line, so any
`fuel ≥ buf.length` gives the loop's true behavior).  `self.state_stack[-1]`
is evaluated before `self.line_inbuf.pop()`, so on an empty stack the
`IndexError` is caught with the line buffer intact; on a non-empty stack each
iteration pops the LAST buffered line and delivers it to the top state's
`on_readline`.  Returns the remaining buffer and the delivered lines in
delivery order. -/

def dispatchGo {σ : Type} : Nat → List (List Char) → List σ →
    List (List Char) × List (List Char)
  | 0, buf, _ => (buf, [])
  | fuel + 1, buf, stack =>
    match buf with
    | [] => ([], [])
    | x :: xs =>
      match stack with
      | [] => (x :: xs, [])
      | _ :: _ =>
        match pyPop (x :: xs) with
        | none => (x :: xs, [])
        | some (line, rest) =>
          let r := dispatchGo fuel rest stack
          (r.1, line :: r.2)

/-- The dispatch loop run to completion on the current buffer. -/

def dispatchLines {σ : Type} (buf : List (List Char)) (stack : List σ) :
    List (List Char) × List (List Char) :=
  dispatchGo buf.length buf stack

/-- The `MUDConnection` state relevant to line decoding and dispatch
(network.py lines 34–38): the buffered lines and the session-state stack. -/

structure MUDConn (σ : Type) where
  line_inbuf : List (List Char)
  state_stack : List σ

/-- `on_telnet_data` (network.py lines 43–54): extract the lines of the read
into `line_inbuf` (discarding trailing bytes after the last line feed), then
run the dispatch loop.  Returns the updated connection and the lines delivered
to the top state's `on_readline`, in delivery order; the `IndexError` of an
empty stack is caught inside, so the call always returns normally. -/

def on_telnet_data {σ : Type} (conn : MUDConn σ) (data : List Char) :
    MUDConn σ × List (List Char) :=
  let buf := conn.line_inbuf ++ lineSplit data
  let r := dispatchLines buf conn.state_stack
  (⟨r.1, conn.state_stack⟩, r.2)

/-- The decoded-line sequence obtained by feeding each read in turn into the
`while '\n' in data` extraction loop. -/

def lineDecodeIncremental (reads : List (List Char)) : List (List Char) :=
  (reads.map lineSplit).flatten

/-- The Python exceptions relevant to the embedded fragments. -/

inductive PyExn where
  | attributeError : PyExn
  | valueError : PyExn
deriving DecidableEq, Repr

/-- `push_state` (network.py lines 59–60): the body is
`self.state_stack.push(state)`, but Python `list` objects have no `push`
method (the appending method is `append`), so the attribute lookup raises
`AttributeError` on every call, before any state change. -/

def push_state {σ : Type} (stack : List σ) (state : σ) : Except PyExn (List σ) :=
  Except.error PyExn.attributeError

/-- `pop_state` (network.py lines 62–67): `state_stack.pop()` returns the last
state; the `IndexError` on an empty stack is caught and `None` returned. -/

def pop_state {σ : Type} (stack : List σ) : Option σ × List σ :=
  match pyPop stack with
  | none => (none, stack)
  | some (s, rest) => (some s, rest)

/-! ## Handshake validation pipeline (websocket.py lines 79–284) -/

/-- `raw.split("\r\n")` (websocket.py line 130), scanning left to right. -/

def splitCRLF : List Char → List (List Char)
  | [] => [[]]
  | '\r' :: '\n' :: rest => [] :: splitCRLF rest
  | c :: rest =>
    match splitCRLF rest with
    | [] => [[c]]
    | l :: ls => (c :: l) :: ls

/-- Accumulator loop for Python `str.split()` with no argument: split on runs
of whitespace, dropping empty tokens. -/

def wsSplitAux : List Char → List Char → List (List Char)
  | [], acc => if acc.isEmpty then [] else [acc.reverse]
  | c :: rest, acc =>
    if pyIsSpace c then
      if acc.isEmpty then wsSplitAux rest [] else acc.reverse :: wsSplitAux rest []
    else wsSplitAux rest (c :: acc)

/-- Python `header.split()` (websocket.py line 173). -/

def pySplitWs (s : List Char) : List (List Char) := wsSplitAux s []

/-- Python `path.startswith('/')`. -/

def pathStartsSlash : List Char → Bool
  | [] => false
  | c :: _ => c = '/'

/-- `raw_field.find(": ")` (websocket.py line 213): index of the first
occurrence of the two-character separator (`none` stands for `-1`). -/

def findColonSpace : List Char → Option Nat
  | [] => none
  | ':' :: ' ' :: _ => some 0
  | _ :: rest => (findColonSpace rest).map (· + 1)

/-- A character of `string.ascii_letters + string.digits + string.punctuation`
with the colon removed (websocket.py lines 209–210): printable ASCII except
space and `':'`. -/

def isPermittedFieldChar (c : Char) : Bool :=
  33 ≤ c.toNat && c.toNat ≤ 126 && !(c.toNat = 58)

/-- Python 2 `str.lower()` on a byte character: ASCII upper to lower. -/

def pyLowerChar (c : Char) : Char :=
  if 65 ≤ c.toNat && c.toNat ≤ 90 then Char.ofNat (c.toNat + 32) else c

/-- Python 2 `str.lower()`. -/

def pyLower (s : List Char) : List Char := s.map pyLowerChar

/-- `fields[name] = value` on a Python dict modelled as an association list:
the new binding silently overwrites any previous one for the same key. -/

def dictSet (k v : List Char) (d : List (List Char × List Char)) :
    List (List Char × List Char) :=
  (k, v) :: d.filter (fun p => p.1 ≠ k)

def kGET : List Char := "GET".toList

def kHTTP : List Char := "HTTP/1.1".toList

def kUpgrade : List Char := "Upgrade".toList

def kConnection : List Char := "Connection".toList

def kHost : List Char := "Host".toList

def kOrigin : List Char := "Origin".toList

def kKey1 : List Char := "Sec-WebSocket-Key1".toList

def kKey2 : List Char := "Sec-WebSocket-Key2".toList

def kProto : List Char := "Sec-WebSocket-Protocol".toList

def kWebsocket : List Char := "websocket".toList

def kUpgradeLC : List Char := "upgrade".toList

def kCRLF : List Char := ['\r', '\n']

def respStatus : List Char := "HTTP/1.1 101 WebSocket Protocol Handshake\r\n".toList

def respUpgrade : List Char := "Upgrade: WebSocket\r\n".toList

def respConn : List Char := "Connection: Upgrade\r\n".toList

def respLocationHdr : List Char := "Sec-WebSocket-Location: ".toList

def respOriginHdr : List Char := "Sec-WebSocket-Origin: ".toList

def respProtoHdr : List Char := "Sec-WebSocket-Protocol: ".toList

def kWsScheme : List Char := "ws://".toList

/-- `websocket_validate_handshake` (websocket.py lines 155–194).
`Except.ok none` is the `return False` path; the `Except.error` is the
uncaught `ValueError` raised by `get, path, http = header.split()` when the
request line does not split into exactly three tokens. -/

def websocket_validate_handshake (handshake : List (List Char)) :
    Except PyExn (Option (List Char × List Char × List (List Char))) :=
  if handshake.length < 3 then Except.ok none
  else
    match handshake with
    | [] => Except.ok none
    | header :: rest =>
      match pySplitWs header with
      | [g, path, http] =>
        if g ≠ kGET then Except.ok none
        else if http ≠ kHTTP then Except.ok none
        else if ¬ pathStartsSlash path then Except.ok none
        else
          let blank := rest.getD (rest.length - 2) []
          let final_bytes := rest.getLastD []
          if blank ≠ [] then Except.ok none
          else if final_bytes.length ≠ 8 then Except.ok none
          else Except.ok (some (path, final_bytes, rest.take (rest.length - 2)))
      | _ => Except.error PyExn.valueError

/-- The `for raw_field in raw_fields` loop of `websocket_validate_fields`
(websocket.py lines 212–222): `none` is `return False`. -/

def parseFields : List (List Char) → List (List Char × List Char) →
    Option (List (List Char × List Char))
  | [], d => some d
  | f :: fs, d =>
    match findColonSpace f with
    | none => none
    | some i =>
      if (f.take i).all isPermittedFieldChar then
        parseFields fs (dictSet (f.take i) (f.drop (i + 2)) d)
      else none

/-- `websocket_validate_fields` (websocket.py lines 196–244): parse the header
fields, then check existence of the six mandatory fields and the values of
`Upgrade` and `Connection`; `none` is `return False`. -/

def websocket_validate_fields (raw_fields : List (List Char)) :
    Option (List (List Char × List Char)) :=
  match parseFields raw_fields [] with
  | none => none
  | some fields =>
    if (List.lookup kUpgrade fields).isNone then none
    else if (List.lookup kConnection fields).isNone then none
    else if (List.lookup kHost fields).isNone then none
    else if (List.lookup kOrigin fields).isNone then none
    else if (List.lookup kKey1 fields).isNone then none
    else if (List.lookup kKey2 fields).isNone then none
    else if pyLower ((List.lookup kUpgrade fields).getD []) ≠ kWebsocket then none
    else if pyLower ((List.lookup kConnection fields).getD []) ≠ kUpgradeLC then none
    else some fields

/-- Python `s.split(sep)` for a one-character separator, no maxsplit. -/

def pySplitChar (sep : Char) : List Char → List (List Char)
  | [] => [[]]
  | c :: cs =>
    match pySplitChar sep cs with
    | [] => [[c]]
    | l :: ls => if c = sep then [] :: l :: ls else (c :: l) :: ls

/-- `websocket_build_response` (websocket.py lines 246–284).  The
`Except.error` is the uncaught `ValueError` raised by
`host, port = fields["Host"].split(':')` when the Host value does not contain
exactly one colon; `Except.ok none` is the `return False` path taken when the
challenge response cannot be built. -/

def websocket_build_response (path final_bytes : List Char)
    (fields : List (List Char × List Char)) : Except PyExn (Option (List Char)) :=
  match pySplitChar ':' ((List.lookup kHost fields).getD []) with
  | [host, port] =>
    match websocket_build_challenge_response ((List.lookup kKey1 fields).getD [])
        ((List.lookup kKey2 fields).getD []) final_bytes with
    | none => Except.ok none
    | some cr =>
      Except.ok (some (respStatus ++ respUpgrade ++ respConn ++
        respLocationHdr ++ (kWsScheme ++ host ++ [':'] ++ port ++ path) ++ kCRLF ++
        respOriginHdr ++ ((List.lookup kOrigin fields).getD []) ++ kCRLF ++
        (match List.lookup kProto fields with
          | some sub => respProtoHdr ++ sub ++ kCRLF
          | none => []) ++
        kCRLF ++ cr.map Char.ofNat ++ kCRLF))
  | _ => Except.error PyExn.valueError

/-- `websocket_process_handshake` (websocket.py lines 119–153): validate the
request, build the response; `ok (some response)` means the response was sent
and the handshake flag set, `ok none` means `return False`. -/

def websocket_process_handshake (raw : List Char) :
    Except PyExn (Option (List Char)) :=
  match websocket_validate_handshake (splitCRLF raw) with
  | Except.error e => Except.error e
  | Except.ok none => Except.ok none
  | Except.ok (some (path, final_bytes, raw_fields)) =>
    match websocket_validate_fields raw_fields with
    | none => Except.ok none
    | some fields => websocket_build_response path final_bytes fields

/-- `handle_read` (websocket.py lines 79–91) on the first (pre-handshake)
read: the result is (response sent if any, handshake flag, closed flag); an
`Except.error` is an exception propagating out of `handle_read` — nothing was
sent and `close()` was never reached. -/

def wsHandleRead (raw : List Char) :
    Except PyExn (Option (List Char) × Bool × Bool) :=
  match websocket_process_handshake raw with
  | Except.error e => Except.error e
  | Except.ok none => Except.ok (none, false, true)
  | Except.ok (some resp) => Except.ok (some resp, true, false)

/-- The concrete C9 witness request: fully valid handshake except that the
`Host` value `example.com` contains no colon. -/

def cReq : List Char :=
  ("GET / HTTP/1.1\r\nUpgrade: websocket\r\nConnection: Upgrade\r\nHost: example.com\r\nOrigin: http://x\r\nSec-WebSocket-Key1: 1 2\r\nSec-WebSocket-Key2: 3 4\r\n\r\n12345678").toList

/-- The (path, final bytes, raw field lines) triple parsed from `cReq`. -/

def cTriple : List Char × List Char × List (List Char) :=
  match websocket_validate_handshake (splitCRLF cReq) with
  | Except.ok (some t) => t
  | _ => ([], [], [])

/-- The validated field dictionary of `cReq`. -/

def cFields : List (List Char × List Char) :=
  (websocket_validate_fields cTriple.2.2).getD []

/-! ## Theorems -/

theorem md5Final_length (st : Nat × Nat × Nat × Nat) : (md5Final st).length = 16 := by
  simp [md5Final, le32]

theorem md5_length (msg : List Nat) : (md5 msg).length = 16 := by
  unfold md5
  exact md5Final_length _

theorem buildNumLoop_eq (key : List Char) : ∀ n s : Nat,
    buildNumLoop key n s = ((keyDigits key).foldl (fun a c => a * 10 + (c.toNat - 48)) n,
      s + keySpaces key) := by
  induction key with
  | nil => intro n s; simp [buildNumLoop, keyDigits, keySpaces]
  | cons c cs ih =>
    intro n s
    by_cases hd : pyIsDigit c
    · have hno : pyIsSpace c = false := by
        have h1 : 48 ≤ c.toNat ∧ c.toNat ≤ 57 := by simpa [pyIsDigit] using hd
        simp [pyIsSpace]
        omega
      simp [buildNumLoop, hd, hno, keyDigits, keySpaces, ih, List.countP_cons]
    · by_cases hs : pyIsSpace c
      · simp [buildNumLoop, hd, hs, keyDigits, keySpaces, ih, List.countP_cons]
        omega
      · simp [buildNumLoop, hd, hs, keyDigits, keySpaces, ih, List.countP_cons]

theorem build_num_eq (key : List Char) :
    build_num key = if 4294967295 < keyNumber key then none
      else if keySpaces key < 1 then none
      else some (keyNumber key / keySpaces key) := by
  unfold build_num keyNumber
  rw [buildNumLoop_eq]
  simp

/-- C1: for key strings with at least one decimal digit, concatenated digit
value at most 4294967295 and at least one whitespace character, `build_num`
derives exactly the concatenated digit value integer-divided by the whitespace
count; for any 8-byte final-bytes value `websocket_build_challenge_response`
returns a 16-byte challenge response, and (being a pure function of its
arguments) two calls on identical inputs return identical responses. -/
theorem websocket_challenge_response_c1
    (key1 key2 final_bytes : List Char)
    (hd1 : 0 < (keyDigits key1).length) (hd2 : 0 < (keyDigits key2).length)
    (hn1 : keyNumber key1 ≤ 4294967295) (hn2 : keyNumber key2 ≤ 4294967295)
    (hs1 : 1 ≤ keySpaces key1) (hs2 : 1 ≤ keySpaces key2)
    (hfb : final_bytes.length = 8) :
    build_num key1 = some (keyNumber key1 / keySpaces key1) ∧
    build_num key2 = some (keyNumber key2 / keySpaces key2) ∧
    (∃ r, websocket_build_challenge_response key1 key2 final_bytes = some r ∧
      r.length = 16) ∧
    websocket_build_challenge_response key1 key2 final_bytes =
      websocket_build_challenge_response key1 key2 final_bytes := by
  have h1 : build_num key1 = some (keyNumber key1 / keySpaces key1) := by
    rw [build_num_eq]
    rw [if_neg (by omega), if_neg (by omega)]
  have h2 : build_num key2 = some (keyNumber key2 / keySpaces key2) := by
    rw [build_num_eq]
    rw [if_neg (by omega), if_neg (by omega)]
  refine ⟨h1, h2, ⟨?_, ?_⟩, rfl⟩
  · exact md5 (pack32BE (keyNumber key1 / keySpaces key1) ++
      pack32BE (keyNumber key2 / keySpaces key2) ++ final_bytes.map Char.toNat)
  · unfold websocket_build_challenge_response
    rw [h1, h2]
    exact ⟨rfl, md5_length _⟩

/-- C1 witness: the hypotheses of `websocket_challenge_response_c1` hold at a
concrete pair of keys and final bytes, and the theorem applies there. -/
theorem websocket_challenge_response_c1_witness :
    (∃ r, websocket_build_challenge_response wKeyA wKeyB wFinal = some r ∧
      r.length = 16) ∧
    build_num wKeyA = some 12 := by
  have h := websocket_challenge_response_c1 wKeyA wKeyB wFinal
    (by decide) (by decide) (by decide) (by decide) (by decide) (by decide) (by decide)
  refine ⟨h.2.2.1, ?_⟩
  have h1 := h.1
  have : keyNumber wKeyA / keySpaces wKeyA = 12 := by decide
  rwa [this] at h1

theorem findByte_cons (x b : Nat) (bs : List Nat) :
    findByte x (b :: bs) = if b = x then some 0 else (findByte x bs).map (· + 1) := rfl

theorem findByte_lt_length {x : Nat} : ∀ {l : List Nat} {i : Nat},
    findByte x l = some i → i < l.length := by
  intro l
  induction l with
  | nil => intro i h; simp [findByte] at h
  | cons b bs ih =>
    intro i h
    by_cases hb : b = x
    · subst hb
      simp [findByte] at h
      simp [← h]
    · simp [findByte, hb] at h
      obtain ⟨j, hj, rfl⟩ := h
      have := ih hj
      simp
      omega

theorem findByte_append_left {x : Nat} : ∀ {l : List Nat} {i : Nat} (l' : List Nat),
    findByte x l = some i → findByte x (l ++ l') = some i := by
  intro l
  induction l with
  | nil => intro i l' h; simp [findByte] at h
  | cons b bs ih =>
    intro i l' h
    by_cases hb : b = x
    · simp [findByte, hb] at h ⊢
      omega
    · simp [findByte, hb] at h ⊢
      obtain ⟨j, hj, rfl⟩ := h
      exact ⟨j, ih l' hj, rfl⟩

theorem findByte_eq_none {x : Nat} : ∀ {l : List Nat}, x ∉ l → findByte x l = none := by
  intro l
  induction l with
  | nil => intro _; rfl
  | cons b bs ih =>
    intro h
    have hb : b ≠ x := fun hbx => h (hbx ▸ List.mem_cons_self b bs)
    simp [findByte, hb, ih (fun hm => h (List.mem_cons_of_mem b hm))]

theorem findByte_append_of_not_mem {x : Nat} : ∀ {l : List Nat} (l' : List Nat),
    x ∉ l → findByte x (l ++ l') = (findByte x l').map (· + l.length) := by
  intro l
  induction l with
  | nil => intro l' _; simp
  | cons b bs ih =>
    intro l' h
    have hb : b ≠ x := fun hbx => h (hbx ▸ List.mem_cons_self b bs)
    have hbs : x ∉ bs := fun hm => h (List.mem_cons_of_mem b hm)
    have heq : findByte x ((b :: bs) ++ l') = (findByte x (bs ++ l')).map (· + 1) := by
      rw [List.cons_append, findByte_cons, if_neg hb]
    rw [heq, ih l' hbs, Option.map_map]
    rcases findByte x l' with _ | j
    · rfl
    · simp only [Option.map_some', Function.comp_apply, Option.some.injEq, List.length_cons]
      omega

theorem wsProcessGo_irrel : ∀ (fuel fuel' : Nat) (inbuf : List Nat)
    (pkts : List (List Nat)), inbuf.length ≤ fuel → inbuf.length ≤ fuel' →
    wsProcessGo fuel inbuf pkts = wsProcessGo fuel' inbuf pkts := by
  intro fuel
  induction fuel with
  | zero =>
    intro fuel' inbuf pkts hlen hlen'
    have hb : inbuf = [] := List.length_eq_zero.mp (Nat.le_zero.mp hlen)
    subst hb
    cases fuel' with
    | zero => rfl
    | succ f => rfl
  | succ fuel ih =>
    intro fuel' inbuf pkts hlen hlen'
    cases fuel' with
    | zero =>
      have hb : inbuf = [] := List.length_eq_zero.mp (Nat.le_zero.mp hlen')
      subst hb
      rfl
    | succ f =>
      show wsProcessGo (fuel + 1) inbuf pkts = wsProcessGo (f + 1) inbuf pkts
      unfold wsProcessGo
      cases h0 : findByte 0 inbuf with
      | none => rfl
      | some ps =>
        cases hF : findByte 255 inbuf with
        | none => rfl
        | some pe =>
          by_cases hpe : pe < ps
          · simp [hpe]
          · simp only [hpe, if_false]
            cases hdec : decodeUtf8ToLatin1
                ((((inbuf.take (pe + 1)).drop ps).drop 1).dropLast) with
            | none => rfl
            | some m =>
              have hlt : pe < inbuf.length := findByte_lt_length hF
              exact ih f (inbuf.drop (pe + 1)) (pkts ++ [m])
                (by simp; omega) (by simp; omega)

theorem wsProcess_go_succ (inbuf : List Nat) (pkts : List (List Nat)) :
    wsProcess inbuf pkts = wsProcessGo (inbuf.length + 1) inbuf pkts :=
  wsProcessGo_irrel inbuf.length (inbuf.length + 1) inbuf pkts (Nat.le_refl _)
    (Nat.le_succ _)

theorem wsProcess_stall (inbuf : List Nat) (pkts : List (List Nat))
    (h : findByte 0 inbuf = none ∨ findByte 255 inbuf = none) :
    wsProcess inbuf pkts = (inbuf, pkts, none) := by
  rw [wsProcess_go_succ]
  unfold wsProcessGo
  rcases h with h | h
  · rw [h]
  · cases h0 : findByte 0 inbuf with
    | none => rfl
    | some ps => rw [h]

theorem wsProcess_malformed {inbuf : List Nat} {pkts : List (List Nat)} {ps pe : Nat}
    (h0 : findByte 0 inbuf = some ps) (hF : findByte 255 inbuf = some pe)
    (hpe : pe < ps) :
    wsProcess inbuf pkts = (inbuf, pkts, some WsErr.malformedPacket) := by
  rw [wsProcess_go_succ]
  unfold wsProcessGo
  rw [h0, hF]
  simp only [if_pos hpe]

theorem wsProcess_unicode {inbuf : List Nat} {pkts : List (List Nat)} {ps pe : Nat}
    (h0 : findByte 0 inbuf = some ps) (hF : findByte 255 inbuf = some pe)
    (hpe : ¬ pe < ps)
    (hdec : decodeUtf8ToLatin1 ((((inbuf.take (pe + 1)).drop ps).drop 1).dropLast) = none) :
    wsProcess inbuf pkts = (inbuf, pkts, some WsErr.unicodeError) := by
  rw [wsProcess_go_succ]
  unfold wsProcessGo
  rw [h0, hF]
  simp only [if_neg hpe, hdec]

theorem wsProcess_step {inbuf : List Nat} {pkts : List (List Nat)} {ps pe : Nat}
    {m : List Nat}
    (h0 : findByte 0 inbuf = some ps) (hF : findByte 255 inbuf = some pe)
    (hpe : ¬ pe < ps)
    (hdec : decodeUtf8ToLatin1 ((((inbuf.take (pe + 1)).drop ps).drop 1).dropLast) = some m) :
    wsProcess inbuf pkts = wsProcess (inbuf.drop (pe + 1)) (pkts ++ [m]) := by
  rw [wsProcess_go_succ]
  unfold wsProcessGo
  rw [h0, hF]
  simp only [if_neg hpe, hdec]
  exact wsProcessGo_irrel inbuf.length (inbuf.drop (pe + 1)).length
    (inbuf.drop (pe + 1)) (pkts ++ [m]) (by simp) (Nat.le_refl _)

theorem wsProcess_append_aux (y : List Nat) : ∀ (n : Nat) (b : List Nat)
    (pkts : List (List Nat)) (b' : List Nat) (pkts' : List (List Nat)),
    b.length ≤ n →
    wsProcess b pkts = (b', pkts', none) →
    wsProcess (b ++ y) pkts = wsProcess (b' ++ y) pkts' := by
  intro n
  induction n with
  | zero =>
    intro b pkts b' pkts' hlen h
    have hb : b = [] := List.length_eq_zero.mp (Nat.le_zero.mp hlen)
    subst hb
    rw [wsProcess_stall [] pkts (Or.inl rfl)] at h
    injection h with h1 h2
    injection h2 with h2 h3
    subst h1
    subst h2
    rfl
  | succ n ih =>
    intro b pkts b' pkts' hlen h
    cases h0 : findByte 0 b with
    | none =>
      rw [wsProcess_stall b pkts (Or.inl h0)] at h
      injection h with h1 h2
      injection h2 with h2 h3
      subst h1
      subst h2
      rfl
    | some ps =>
      cases hF : findByte 255 b with
      | none =>
        rw [wsProcess_stall b pkts (Or.inr hF)] at h
        injection h with h1 h2
        injection h2 with h2 h3
        subst h1
        subst h2
        rfl
      | some pe =>
        by_cases hpe : pe < ps
        · rw [wsProcess_malformed h0 hF hpe] at h
          injection h with h1 h2
          injection h2 with h2 h3
          exact absurd h3 (by simp)
        · cases hdec : decodeUtf8ToLatin1 ((((b.take (pe + 1)).drop ps).drop 1).dropLast) with
          | none =>
            rw [wsProcess_unicode h0 hF hpe hdec] at h
            injection h with h1 h2
            injection h2 with h2 h3
            exact absurd h3 (by simp)
          | some m =>
            have hpelen : pe < b.length := findByte_lt_length hF
            have h0' : findByte 0 (b ++ y) = some ps := findByte_append_left y h0
            have hF' : findByte 255 (b ++ y) = some pe := findByte_append_left y hF
            have htake : (b ++ y).take (pe + 1) = b.take (pe + 1) :=
              List.take_append_of_le_length (by omega)
            have hdec' : decodeUtf8ToLatin1
                (((((b ++ y).take (pe + 1)).drop ps).drop 1).dropLast) = some m := by
              rw [htake]; exact hdec
            have hdrop : (b ++ y).drop (pe + 1) = b.drop (pe + 1) ++ y :=
              List.drop_append_of_le_length (by omega)
            rw [wsProcess_step h0' hF' hpe hdec', hdrop]
            rw [wsProcess_step h0 hF hpe hdec] at h
            exact ih (b.drop (pe + 1)) (pkts ++ [m]) b' pkts' (by simp; omega) h

/-- Chunk invariance of the frame decoder: if a run of
`websocket_process_inbuf` returns normally, appending further bytes to the
buffer and re-running is the same as having had those bytes from the start. -/
theorem wsProcess_append {b : List Nat} {pkts : List (List Nat)} {b' : List Nat}
    {pkts' : List (List Nat)} (y : List Nat)
    (h : wsProcess b pkts = (b', pkts', none)) :
    wsProcess (b ++ y) pkts = wsProcess (b' ++ y) pkts' :=
  wsProcess_append_aux y b.length b pkts b' pkts' (Nat.le_refl _) h

theorem wsProcess_helloWorld :
    wsProcess helloWorldStream [] = ([], [helloBytes, worldBytes], none) := by decide

theorem wsProcess_helloWorld_take_none (k : Nat) :
    (wsProcess (helloWorldStream.take k) []).2.2 = none := by
  by_cases hk : k < 15
  · revert hk
    revert k
    decide
  · have hlen : helloWorldStream.length ≤ k := by
      simp [helloWorldStream]
      omega
    rw [List.take_of_length_le hlen, wsProcess_helloWorld]

theorem wsFeedAll_helloWorld_aux : ∀ (chunks : List (List Nat)) (P b : List Nat)
    (p : List (List Nat)),
    P ++ chunks.flatten = helloWorldStream →
    wsProcess P [] = (b, p, none) →
    wsFeedAll chunks (b, p) = (([], [helloBytes, worldBytes]), false) := by
  intro chunks
  induction chunks with
  | nil =>
    intro P b p hjoin h
    rw [List.flatten_nil, List.append_nil] at hjoin
    subst hjoin
    rw [wsProcess_helloWorld] at h
    injection h with h1 h2
    injection h2 with h2 h3
    subst h1
    subst h2
    rfl
  | cons d ds ih =>
    intro P b p hjoin h
    have hjoin' : (P ++ d) ++ ds.flatten = helloWorldStream := by
      rw [List.flatten_cons, ← List.append_assoc] at hjoin
      exact hjoin
    have hA : wsProcess (P ++ d) [] = wsProcess (b ++ d) p := wsProcess_append d h
    have hpre : (wsProcess (P ++ d) []).2.2 = none := by
      have hpd : P ++ d = helloWorldStream.take (P ++ d).length := by
        rw [← hjoin']
        exact (List.take_left (P ++ d) ds.flatten).symm
      rw [hpd]
      exact wsProcess_helloWorld_take_none _
    rcases hE : wsProcess (P ++ d) [] with ⟨b1, p1, e1⟩
    have he1 : e1 = none := by rw [hE] at hpre; exact hpre
    subst he1
    have hbd : wsProcess (b ++ d) p = (b1, p1, none) := by rw [← hA, hE]
    show (let r := wsFeed (b, p) d
      let rest := wsFeedAll ds r.1
      (rest.1, r.2.isSome || rest.2)) = (([], [helloBytes, worldBytes]), false)
    have hfeed : wsFeed (b, p) d = ((b1, p1), none) := by
      unfold wsFeed
      rw [hbd]
    rw [hfeed]
    have hrest := ih (P ++ d) b1 p1 hjoin' hE
    simp only [hrest]
    rfl

/-- C4: for every way of splitting the post-handshake stream
`\x00hello\xFF\x00world\xFF` into successive reads, feeding the reads through
`handle_read` / `websocket_process_inbuf` appends exactly the two decoded
messages `"hello"` then `"world"` (each the bytes strictly between its `0x00`
start marker and `0xFF` end marker), in that order, raising no exception and
consuming the whole buffer. -/
theorem websocket_frames_helloWorld_c4 (chunks : List (List Nat))
    (h : chunks.flatten = helloWorldStream) :
    wsFeedAll chunks ([], []) = (([], [helloBytes, worldBytes]), false) :=
  wsFeedAll_helloWorld_aux chunks [] [] [] (by rw [List.nil_append]; exact h) rfl

/-- C4 witness: a concrete 4-read split of `\x00hello\xFF\x00world\xFF`
(including an empty read) joins to the stream, and the theorem applies to it. -/
theorem websocket_frames_helloWorld_c4_witness :
    ([[0, 104], [101, 108, 108, 111, 255, 0], [], [119, 111, 114, 108, 100, 255]] :
      List (List Nat)).flatten = helloWorldStream ∧
    wsFeedAll [[0, 104], [101, 108, 108, 111, 255, 0], [], [119, 111, 114, 108, 100, 255]]
      ([], []) = (([], [helloBytes, worldBytes]), false) :=
  ⟨by decide, websocket_frames_helloWorld_c4 _ (by decide)⟩

/-- C5: if the first `0xFF` end marker of a post-handshake buffer precedes its
first `0x00` start marker, `websocket_process_inbuf` raises the fatal
malformed-packet exception immediately: the buffer and the packet queue are
left unchanged, so no decoded message is emitted for that stream. -/
theorem websocket_stray_end_marker_c5 (b : List Nat) (pkts : List (List Nat))
    (ps pe : Nat) (h0 : findByte 0 b = some ps) (hF : findByte 255 b = some pe)
    (hlt : pe < ps) :
    wsProcess b pkts = (b, pkts, some WsErr.malformedPacket) :=
  wsProcess_malformed h0 hF hlt

/-- C5 witness: the buffer `\xFF\x00` has its first `0xFF` at index 0 before
its first `0x00` at index 1, and the theorem applies to it. -/
theorem websocket_stray_end_marker_c5_witness :
    findByte 0 [255, 0] = some 1 ∧ findByte 255 [255, 0] = some 0 ∧
    wsProcess [255, 0] [] = ([255, 0], [], some WsErr.malformedPacket) :=
  ⟨by decide, by decide,
    websocket_stray_end_marker_c5 [255, 0] [] 1 0 (by decide) (by decide) (by decide)⟩

/-- C10: if the first complete `0x00 … 0xFF` frame of the buffer has a payload
that fails `decode("UTF-8").encode("latin1")`, then (1) the call raises the
Unicode error before consuming the frame — buffer and packet queue unchanged;
(2) the same error recurs on every subsequent read, however many bytes are
appended; (3) a well-formed frame earlier in the same buffer is consumed and
its message stays appended when the error is raised. -/
theorem websocket_unicode_error_c10 (b : List Nat) (pkts : List (List Nat))
    (ps pe : Nat) (h0 : findByte 0 b = some ps) (hF : findByte 255 b = some pe)
    (hpe : ¬ pe < ps)
    (hbad : decodeUtf8ToLatin1 ((((b.take (pe + 1)).drop ps).drop 1).dropLast) = none) :
    wsProcess b pkts = (b, pkts, some WsErr.unicodeError) ∧
    (∀ y : List Nat, wsProcess (b ++ y) pkts = (b ++ y, pkts, some WsErr.unicodeError)) ∧
    (∀ m m' : List Nat, 0 ∉ m → 255 ∉ m → decodeUtf8ToLatin1 m = some m' →
      wsProcess ((0 :: (m ++ [255])) ++ b) pkts =
        (b, pkts ++ [m'], some WsErr.unicodeError)) := by
  have hpelen : pe < b.length := findByte_lt_length hF
  have main : ∀ q : List (List Nat), wsProcess b q = (b, q, some WsErr.unicodeError) :=
    fun q => wsProcess_unicode h0 hF hpe hbad
  refine ⟨main pkts, ?_, ?_⟩
  · intro y
    have h0' : findByte 0 (b ++ y) = some ps := findByte_append_left y h0
    have hF' : findByte 255 (b ++ y) = some pe := findByte_append_left y hF
    have htake : (b ++ y).take (pe + 1) = b.take (pe + 1) :=
      List.take_append_of_le_length (by omega)
    exact wsProcess_unicode h0' hF' hpe (by rw [htake]; exact hbad)
  · intro m m' hm0 hmF hdec
    have hcons : (0 :: (m ++ [255])) ++ b = 0 :: (m ++ (255 :: b)) := by simp
    have h0' : findByte 0 ((0 :: (m ++ [255])) ++ b) = some 0 := by
      rw [hcons, findByte_cons, if_pos rfl]
    have hF' : findByte 255 ((0 :: (m ++ [255])) ++ b) = some (m.length + 1) := by
      rw [hcons, findByte_cons, if_neg (by omega)]
      rw [findByte_append_of_not_mem (255 :: b) hmF]
      rw [findByte_cons, if_pos rfl]
      simp [Nat.add_comm]
    have hlen : (0 :: (m ++ [255])).length = m.length + 2 := by simp
    have htake : ((0 :: (m ++ [255])) ++ b).take (m.length + 1 + 1) = 0 :: (m ++ [255]) := by
      have := List.take_left (0 :: (m ++ [255])) b
      rw [hlen] at this
      exact this
    have hpayload :
        decodeUtf8ToLatin1 (((((0 :: (m ++ [255])) ++ b).take (m.length + 1 + 1)).drop 0).drop
          1).dropLast = some m' := by
      rw [htake]
      simp only [List.drop_zero, List.drop_one, List.tail_cons]
      rw [List.dropLast_concat]
      exact hdec
    have hdrop : ((0 :: (m ++ [255])) ++ b).drop (m.length + 1 + 1) = b := by
      have := List.drop_left (0 :: (m ++ [255])) b
      rw [hlen] at this
      exact this
    rw [wsProcess_step h0' hF' (by omega) hpayload, hdrop]
    exact main (pkts ++ [m'])

/-- C10 witness: the buffer `\x00\xC4\xFF` carries a frame whose payload
`0xC4` is a lone UTF-8 lead byte (invalid), and the theorem applies to it,
both for the bare buffer and after appending a further read. -/
theorem websocket_unicode_error_c10_witness :
    wsProcess [0, 196, 255] [] = ([0, 196, 255], [], some WsErr.unicodeError) ∧
    wsProcess ([0, 196, 255] ++ [7]) [] =
      ([0, 196, 255] ++ [7], [], some WsErr.unicodeError) ∧
    wsProcess ((0 :: ([104] ++ [255])) ++ [0, 196, 255]) [] =
      ([0, 196, 255], [[104]], some WsErr.unicodeError) := by
  have h := websocket_unicode_error_c10 [0, 196, 255] [] 0 2
    (by decide) (by decide) (by decide) (by decide)
  exact ⟨h.1, h.2.1 [7], h.2.2 [104] [104] (by decide) (by decide) (by decide)⟩

theorem pyPop_concat {α : Type} : ∀ (ys : List α) (y : α),
    pyPop (ys ++ [y]) = some (y, ys) := by
  intro ys y
  induction ys with
  | nil => rfl
  | cons a as ih =>
    show pyPop (a :: (as ++ [y])) = _
    unfold pyPop
    rw [ih]

theorem dispatchLines_empty_stack {σ : Type} (buf : List (List Char)) :
    dispatchLines buf ([] : List σ) = (buf, []) := by
  cases buf with
  | nil => rfl
  | cons x xs => rfl

theorem dispatchGo_cons_stack {σ : Type} : ∀ (fuel : Nat) (buf : List (List Char))
    (s : σ) (ss : List σ), buf.length ≤ fuel →
    dispatchGo fuel buf (s :: ss) = ([], buf.reverse) := by
  intro fuel
  induction fuel with
  | zero =>
    intro buf s ss hlen
    have hb : buf = [] := List.length_eq_zero.mp (Nat.le_zero.mp hlen)
    subst hb
    rfl
  | succ fuel ih =>
    intro buf s ss hlen
    rcases List.eq_nil_or_concat buf with rfl | ⟨ys, y, rfl⟩
    · rfl
    · rw [List.concat_eq_append]
      cases ys with
      | nil =>
        simp only [List.nil_append]
        show ((dispatchGo fuel [] (s :: ss)).1, y :: (dispatchGo fuel [] (s :: ss)).2) =
          ([], [y].reverse)
        rw [ih [] s ss (by simp)]
        rfl
      | cons a as =>
        simp only [List.cons_append]
        have hp : pyPop (a :: (as ++ [y])) = some (y, a :: as) := by
          have h2 := pyPop_concat (a :: as) y
          simpa using h2
        show (match pyPop (a :: (as ++ [y])) with
            | none => (a :: (as ++ [y]), ([] : List (List Char)))
            | some (line, rest) =>
              ((dispatchGo fuel rest (s :: ss)).1,
                line :: (dispatchGo fuel rest (s :: ss)).2)) =
          ([], ((a :: as) ++ [y]).reverse)
        rw [hp]
        show ((dispatchGo fuel (a :: as) (s :: ss)).1,
            y :: (dispatchGo fuel (a :: as) (s :: ss)).2) =
          ([], ((a :: as) ++ [y]).reverse)
        rw [ih (a :: as) s ss (by simp at hlen ⊢; omega)]
        simp

theorem dispatchLines_cons_stack {σ : Type} (buf : List (List Char)) (s : σ)
    (ss : List σ) : dispatchLines buf (s :: ss) = ([], buf.reverse) :=
  dispatchGo_cons_stack buf.length buf s ss (Nat.le_refl _)

/-- C2 (refuting evaluation): with a state on the stack, a single read holding
the two lines `A` then `B` is dispatched as `B` then `A` — the dispatch loop
drains `line_inbuf` with `list.pop()`, which removes the LAST buffered line,
so delivery within a multi-line read is reverse-chronological, not FIFO. -/
theorem line_dispatch_lifo_c2 :
    (on_telnet_data (MUDConn.mk [] [0]) (['A', '\n', 'B', '\n'])).2 =
      [['B'], ['A']] ∧
    ([['B'], ['A']] : List (List Char)) ≠ [['A'], ['B']] := by decide

/-- C8: dispatching buffered lines with an empty session-state stack returns
normally (the `IndexError` from `state_stack[-1]` is caught before
`line_inbuf.pop()` runs), delivers nothing, and leaves every buffered line —
previously buffered and newly extracted, in order — in `line_inbuf`, where a
subsequent push-then-redispatch can still observe all of them. -/
theorem line_dispatch_empty_stack_c8 (σ : Type) (buf : List (List Char))
    (data : List Char) :
    on_telnet_data (MUDConn.mk buf ([] : List σ)) data =
      (MUDConn.mk (buf ++ lineSplit data) [], []) := by
  show (MUDConn.mk (dispatchLines (buf ++ lineSplit data) ([] : List σ)).1 [],
      (dispatchLines (buf ++ lineSplit data) ([] : List σ)).2) =
    (MUDConn.mk (buf ++ lineSplit data) [], [])
  rw [dispatchLines_empty_stack]

/-- C6 counterexample: splitting the two-byte stream `a\n` into the reads `a`
and `\n` decodes the empty line, while the same bytes in a single read decode
the line `a` — the trailing byte `a` of the first read is discarded (the
remainder of `data` after the loop is a dropped local), not retained. -/
theorem line_chunk_dependence_c6_counterexample :
    (on_telnet_data (on_telnet_data (MUDConn.mk [] ([] : List Nat)) ['a']).1
      ['\n']).1.line_inbuf = [[]] ∧
    (on_telnet_data (MUDConn.mk [] ([] : List Nat)) ['a', '\n']).1.line_inbuf =
      [['a']] ∧
    ([[]] : List (List Char)) ≠ [['a']] := by decide

theorem splitLF_append_of_rem_nil : ∀ (a b : List Char), (splitLF a).2 = [] →
    splitLF (a ++ b) = ((splitLF a).1 ++ (splitLF b).1, (splitLF b).2) := by
  intro a
  induction a with
  | nil => intro b _; simp [splitLF]
  | cons c cs ih =>
    intro b hrem
    by_cases hc : c = '\n'
    · have hrem' : (splitLF cs).2 = [] := by
        simpa [splitLF, hc] using hrem
      show splitLF (c :: (cs ++ b)) = _
      simp only [splitLF, hc, if_pos rfl, ih b hrem']
      simp [splitLF]
    · cases hcs : (splitLF cs).1 with
      | nil =>
        exfalso
        have : (splitLF (c :: cs)).2 = c :: (splitLF cs).2 := by
          simp only [splitLF, if_neg hc, hcs]
        rw [this] at hrem
        exact List.cons_ne_nil _ _ hrem
      | cons l ls =>
        have hrem' : (splitLF cs).2 = [] := by
          have : (splitLF (c :: cs)).2 = (splitLF cs).2 := by
            simp only [splitLF, if_neg hc, hcs]
          rwa [this] at hrem
        have hcb := ih b hrem'
        show splitLF (c :: (cs ++ b)) = _
        simp only [splitLF, if_neg hc, hcb, hcs]
        simp

/-- C6 amended: the line decoder is chunk-boundary independent exactly on
splits whose every read ends at a line feed (empty remainder); in general the
bytes after the last line feed of a read are discarded, not retained, so the
unrestricted claim fails (see the counterexample). -/
theorem line_chunk_boundary_c6_amended (reads : List (List Char))
    (h : ∀ r ∈ reads, (splitLF r).2 = []) :
    lineDecodeIncremental reads = lineSplit reads.flatten := by
  induction reads with
  | nil => rfl
  | cons r rs ih =>
    have hr : (splitLF r).2 = [] := h r (List.mem_cons_self r rs)
    have hrs := ih (fun x hx => h x (List.mem_cons_of_mem r hx))
    show lineSplit r ++ lineDecodeIncremental rs = lineSplit (r ++ rs.flatten)
    rw [hrs]
    unfold lineSplit
    rw [splitLF_append_of_rem_nil r rs.flatten hr]

/-- C6 amended witness: a split whose reads all end in a line feed satisfies
the hypothesis and decodes chunk-independently. -/
theorem line_chunk_boundary_c6_amended_witness :
    (∀ r ∈ ([[ 'a', '\n'], ['b', '\n']] : List (List Char)), (splitLF r).2 = []) ∧
    lineDecodeIncremental [['a', '\n'], ['b', '\n']] =
      lineSplit (List.flatten [['a', '\n'], ['b', '\n']]) :=
  ⟨by decide, line_chunk_boundary_c6_amended _ (by decide)⟩

/-- C7 (refuting evaluation): `push_state` raises `AttributeError` for every
stack and state (`list.push` does not exist), so a push-then-pop round trip
can never return the pushed state; `pop_state` on the empty stack returns
`None` with the stack still empty. -/
theorem push_state_raises_c7 (stack : List Nat) (state : Nat) :
    push_state stack state = Except.error PyExn.attributeError ∧
    pop_state ([] : List Nat) = (none, []) :=
  ⟨rfl, rfl⟩

/-- C3 (refuting evaluation): the malformed handshake `GET /\r\n\r\n12345678`
(request line with two tokens instead of three) makes
`get, path, http = header.split()` raise an uncaught `ValueError`, so the
first read neither sends a response nor closes the connection, contradicting
the close-immediately-without-exception claim for §4.3 step 2 failures. -/
theorem handshake_malformed_request_line_c3 :
    wsHandleRead (("GET /\r\n\r\n12345678").toList) = Except.error PyExn.valueError ∧
    websocket_validate_handshake (splitCRLF (("GET /\r\n\r\n12345678").toList)) =
      Except.error PyExn.valueError := by
  constructor <;> rfl

theorem pySplitChar_length (sep : Char) : ∀ s : List Char,
    (pySplitChar sep s).length = s.count sep + 1 := by
  intro s
  induction s with
  | nil => rfl
  | cons c cs ih =>
    show (match pySplitChar sep cs with
      | [] => [[c]]
      | l :: ls => if c = sep then [] :: l :: ls else (c :: l) :: ls).length =
        (c :: cs).count sep + 1
    cases hr : pySplitChar sep cs with
    | nil => rw [hr] at ih; simp at ih
    | cons l ls =>
      rw [hr] at ih
      show (if c = sep then [] :: l :: ls else (c :: l) :: ls).length =
        (c :: cs).count sep + 1
      by_cases hc : c = sep
      · rw [if_pos hc]
        simp only [List.length_cons] at ih ⊢
        rw [List.count_cons]
        simp [hc]
        omega
      · rw [if_neg hc]
        simp only [List.length_cons] at ih ⊢
        rw [List.count_cons]
        simp [hc]
        omega

/-- C9: for every handshake request that passes basic-form validation and
field validation but whose `Host` value does not contain exactly one `':'`,
`websocket_build_response` raises an uncaught `ValueError` from
`host, port = fields["Host"].split(':')`, which propagates through
`websocket_process_handshake` and `handle_read`: no response is returned, the
failure value `False` is not produced, and `close()` is never reached. -/
theorem host_colon_valueerror_c9 (raw path final_bytes : List Char)
    (raw_fields : List (List Char)) (fields : List (List Char × List Char))
    (hv : websocket_validate_handshake (splitCRLF raw) =
      Except.ok (some (path, final_bytes, raw_fields)))
    (hf : websocket_validate_fields raw_fields = some fields)
    (hc : ((List.lookup kHost fields).getD []).count ':' ≠ 1) :
    wsHandleRead raw = Except.error PyExn.valueError := by
  have hlen := pySplitChar_length ':' ((List.lookup kHost fields).getD [])
  have hbuild : websocket_build_response path final_bytes fields =
      Except.error PyExn.valueError := by
    unfold websocket_build_response
    rcases hsp : pySplitChar ':' ((List.lookup kHost fields).getD []) with
      _ | ⟨a, _ | ⟨b, _ | ⟨e, t⟩⟩⟩
    · rfl
    · rfl
    · exfalso
      rw [hsp] at hlen
      simp at hlen
      exact hc hlen
    · rfl
  have hph : websocket_process_handshake raw = Except.error PyExn.valueError := by
    unfold websocket_process_handshake
    rw [hv]
    show (match websocket_validate_fields raw_fields with
      | none => Except.ok none
      | some fields => websocket_build_response path final_bytes fields) =
        Except.error PyExn.valueError
    rw [hf]
    exact hbuild
  unfold wsHandleRead
  rw [hph]

/-- C9 witness: `cReq` passes basic-form and field validation, its Host value
has no colon, and the theorem applies: `handle_read` raises `ValueError`. -/
theorem host_colon_valueerror_c9_witness :
    websocket_validate_handshake (splitCRLF cReq) =
      Except.ok (some (cTriple.1, cTriple.2.1, cTriple.2.2)) ∧
    websocket_validate_fields cTriple.2.2 = some cFields ∧
    ((List.lookup kHost cFields).getD []).count ':' ≠ 1 ∧
    wsHandleRead cReq = Except.error PyExn.valueError := by
  have h1 : websocket_validate_handshake (splitCRLF cReq) =
      Except.ok (some (cTriple.1, cTriple.2.1, cTriple.2.2)) := by rfl
  have h2 : websocket_validate_fields cTriple.2.2 = some cFields := by rfl
  have h3 : ((List.lookup kHost cFields).getD []).count ':' ≠ 1 := by decide
  exact ⟨h1, h2, h3,
    host_colon_valueerror_c9 cReq cTriple.1 cTriple.2.1 cTriple.2.2 cFields h1 h2 h3⟩
